import Mathlib

/-!
Verification of the python-console widget core (`src/python/app/input_widget.py`,
`src/python/app/redirect.py`, tab container per spec §4.4) through a shallow
embedding in Lean.

The embedding models:
* the process-wide stream handles (`sys.stdin` / `sys.stdout` / `sys.stderr`)
  as a `Streams` record of abstract `Handle`s;
* the three redirector objects of `redirect.py` with their `_handle` / `_tee`
  fields and context-manager enter/exit protocol;
* `PythonInputWidget.execute` as a function from the widget state to a list of
  emitted Qt-signal events plus the final state and the way control leaves the
  method (normal return or a propagating exception);
* the host interpreter's `compile` / `eval` / `exec` builtins as a parameter
  (`PyRuntime`), instantiated with a small concrete interpreter (`miniRt`)
  covering the scripts appearing in the claims;
* the line-editing helpers (`indent`, `unindent`, `add_new_line`,
  `block_comment_selection`) at the level of the per-line closures and cursor
  arithmetic of the source.
-/

namespace Console

/-! ### Stream handles and redirectors (`redirect.py`) -/

/-- An abstract process-wide stream handle.  `host n` stands for an arbitrary
handle owned by the host application; the three redirector constructors stand
for the redirector objects themselves being installed as `sys.std*`; `pyNone`
is the Python value `None` (assigned when a redirector exits without ever
having entered, which does not occur in the paths modelled here). -/
inductive Handle
  | host (n : Nat)
  | outRedirector
  | inRedirector
  | errRedirector
  | pyNone
deriving DecidableEq, Repr

/-- The process-wide `sys.stdin` / `sys.stdout` / `sys.stderr` triple. -/
structure Streams where
  stdin : Handle
  stdout : Handle
  stderr : Handle
deriving DecidableEq, Repr

/-- Source `redirect.py` `StdoutRedirector`: fields `_handle` (saved handle, set by
`__enter__`) and `_tee`. -/
structure StdoutRedirector where
  _handle : Option Handle
  _tee : Bool
deriving DecidableEq, Repr

/-- Source `redirect.py` `StderrRedirector`: fields `_handle` and `_tee`. -/
structure StderrRedirector where
  _handle : Option Handle
  _tee : Bool
deriving DecidableEq, Repr

/-- Source `redirect.py` `StdinRedirector`: field `_handle` (the `_readline_callback`
field is irrelevant to the claims and omitted). -/
structure StdinRedirector where
  _handle : Option Handle
deriving DecidableEq, Repr

/-- A value of the embedded Python fragment. -/
inductive PyVal
  | intV (n : Int)
  | strV (s : String)
  | noneV
deriving DecidableEq, Repr

/-- The tab's symbol table (`self._locals`): an insertion-ordered dictionary. -/
abbrev SymTable := List (String × PyVal)

/-- The Qt signals emitted by `PythonInputWidget` during `execute`:
`input` (echo), `output` (redirected stdout), `results`, `error`. -/
inductive Event
  | inputEv (s : String)
  | outputEv (s : String)
  | resultsEv (s : String)
  | errorEv (s : String)
deriving DecidableEq, Repr

/-- The text of the `AttributeError` raised by `None.write(...)`. -/
def attributeErrorNoneWrite : String :=
  "AttributeError: NoneType object has no attribute write"

/-- Source `redirect.py` lines 148-157, `StderrRedirector.write`: emit the message on
the `error` signal, then — because `_tee` defaults to `True` — call
`self._handle.write(msg)`.  Unlike `StdoutRedirector.write` (line 105), the
handle is NOT checked against `None`, so when the redirector was never entered
this raises `AttributeError` after the emit.  The result pairs the emitted
events with `some excText` when the call raises. -/
def StderrRedirector.write (r : StderrRedirector) (msg : String) :
    List Event × Option String :=
  ([Event.errorEv msg],
    if r._tee then
      match r._handle with
      | none => some attributeErrorNoneWrite
      | some _ => none
    else none)

/-- The mutable state of one `PythonInputWidget` tab relevant to `execute`,
together with the process-wide stream handles. -/
structure WidgetState where
  locals : SymTable
  echo : Bool
  _stdout_redirect : StdoutRedirector
  _stderr_redirect : StderrRedirector
  _stdin_redirect : StdinRedirector
  streams : Streams
deriving DecidableEq, Repr

/-! ### The host interpreter as a parameter -/

/-- The outcome of running a compiled code object against the tab's symbol
table: the strings the code wrote to `sys.stdout` while running, the returned
value or the formatted traceback of a raised exception, and the symbol table
after the run (the dictionary is mutated in place by `eval` / `exec`). -/
structure RunOutcome where
  writes : List String
  result : Except String PyVal
  locals : SymTable
deriving Repr

/-- The host-interpreter primitives `execute` calls, over an abstract type `C`
of code objects.  `compileEval` / `compileExec` return the compiled object or
the formatted `SyntaxError` traceback (`traceback.format_exc()` of the caught
exception).  `evalRun` / `execRun` model `eval(code, globals, locals)` and
`exec(code, globals, locals)`; `execute` passes the same symbol table as both
namespaces. -/
structure PyRuntime (C : Type) where
  compileEval : String → Except String C
  compileExec : String → Except String C
  evalRun : C → SymTable → SymTable → RunOutcome
  execRun : C → SymTable → SymTable → RunOutcome

/-! ### `PythonInputWidget.execute` (input_widget.py lines 170-249) -/

/-- Python whitespace (the ASCII characters stripped by `str.strip()`). -/
def isPySpace (c : Char) : Bool :=
  c = ' ' ∨ c = '\t' ∨ c = '\n' ∨ c = '\r' ∨ c = '\x0b' ∨ c = '\x0c'

/-- Python `str.strip()`. -/
def pyStrip (s : String) : String :=
  String.mk (((s.toList.dropWhile isPySpace).reverse.dropWhile isPySpace).reverse)

/-- Line 181: `python_script.replace(u2029, newline)` — the selection uses the
Unicode paragraph separator for line breaks. -/
def replaceParaSep (s : String) : String :=
  String.mk (s.toList.map (fun c => if c = '\u2029' then '\n' else c))

/-- Lines 174-186: the effective script — the stripped selection, or the
stripped full buffer when the stripped selection is empty. -/
def effective_script (selected_text plain_text : String) : String :=
  let script0 := pyStrip (replaceParaSep selected_text)
  if script0 = "" then pyStrip plain_text else script0

/-- How control leaves `execute`: a normal return, or an exception propagating
to the caller. -/
inductive ExecExit
  | normal
  | raised (exc : String)
deriving DecidableEq, Repr

/-- The observable outcome of one `execute` call: the events emitted on the Qt
signals in order, the final widget/process state, and the exit mode. -/
structure ExecResult where
  events : List Event
  state : WidgetState
  exit : ExecExit
deriving DecidableEq, Repr

/-- Turn the optional exception of a reporting step into an exit mode. -/
def exitOf : Option String → ExecExit
  | none => ExecExit.normal
  | some e => ExecExit.raised e

/-- Python `str(value)` for the embedded values. -/
def pyStr : PyVal → String
  | PyVal.intV n => toString n
  | PyVal.strV s => s
  | PyVal.noneV => "None"

/-- Lines 191-193: `if self._echo: self.input.emit(python_script)`. -/
def echoEvents (st : WidgetState) (script : String) : List Event :=
  if st.echo then [Event.inputEv script] else []

/-- Lines 218-235, the body of the `eval_code` `try`: on success emit
`results` with `str(results)`; on an exception call
`self._stderr_redirect.write(self._format_exc())` (which may itself raise). -/
def eval_body (r : StderrRedirector) (out : RunOutcome) :
    List Event × Option String :=
  match out.result with
  | Except.ok v => ([Event.resultsEv (pyStr v)], none)
  | Except.error tb => StderrRedirector.write r tb

/-- Lines 243-249, the body of the `exec` `try`: nothing is emitted on
success; on an exception call `self._stderr_redirect.write(...)`. -/
def exec_body (r : StderrRedirector) (out : RunOutcome) :
    List Event × Option String :=
  match out.result with
  | Except.ok _ => ([], none)
  | Except.error tb => StderrRedirector.write r tb

/-- Lines 213-235, the `eval_code` branch: enter `self._stdout_redirect` (save
`sys.stdout` into `_handle`, install the redirector), enter
`self._stdin_redirect` likewise, run `eval(python_code, self._locals,
self._locals)` — the same dictionary is both the global and the local
namespace — emit each stdout write as an `output` event, run the `try` body
events, and finally exit the two `with` blocks (restoring the saved handles)
even when the body raised. -/
def execute_eval_branch {C : Type} (rt : PyRuntime C) (code : C)
    (st : WidgetState) (echoEvs : List Event) : ExecResult :=
  let saved_out := st.streams.stdout
  let st1 : WidgetState :=
    { st with
      _stdout_redirect := ⟨some saved_out, st._stdout_redirect._tee⟩,
      streams := { st.streams with stdout := Handle.outRedirector } }
  let saved_in := st1.streams.stdin
  let st2 : WidgetState :=
    { st1 with
      _stdin_redirect := ⟨some saved_in⟩,
      streams := { st1.streams with stdin := Handle.inRedirector } }
  let out := rt.evalRun code st2.locals st2.locals
  let body := eval_body st2._stderr_redirect out
  let st3 : WidgetState :=
    { st2 with
      locals := out.locals,
      streams :=
        { st2.streams with
          stdin := st2._stdin_redirect._handle.getD Handle.pyNone,
          stdout := st2._stdout_redirect._handle.getD Handle.pyNone } }
  ⟨echoEvs ++ out.writes.map Event.outputEv ++ body.1, st3, exitOf body.2⟩

/-- Lines 238-249, the `exec` branch: identical redirection structure, running
`exec(python_code, self._locals, self._locals)` and emitting no `results`
event on success. -/
def execute_exec_branch {C : Type} (rt : PyRuntime C) (code : C)
    (st : WidgetState) (echoEvs : List Event) : ExecResult :=
  let saved_out := st.streams.stdout
  let st1 : WidgetState :=
    { st with
      _stdout_redirect := ⟨some saved_out, st._stdout_redirect._tee⟩,
      streams := { st.streams with stdout := Handle.outRedirector } }
  let saved_in := st1.streams.stdin
  let st2 : WidgetState :=
    { st1 with
      _stdin_redirect := ⟨some saved_in⟩,
      streams := { st1.streams with stdin := Handle.inRedirector } }
  let out := rt.execRun code st2.locals st2.locals
  let body := exec_body st2._stderr_redirect out
  let st3 : WidgetState :=
    { st2 with
      locals := out.locals,
      streams :=
        { st2.streams with
          stdin := st2._stdin_redirect._handle.getD Handle.pyNone,
          stdout := st2._stdout_redirect._handle.getD Handle.pyNone } }
  ⟨echoEvs ++ out.writes.map Event.outputEv ++ body.1, st3, exitOf body.2⟩

/-- Method `PythonInputWidget.execute`, lines 170-249: compute the effective script
(selection with paragraph separators replaced, stripped; else the stripped
buffer); return silently when empty; echo the input when `self._echo`; compile
as an expression, falling back to statement compilation on `SyntaxError`; on a
second `SyntaxError` report via `self._stderr_redirect.write` and stop;
otherwise run the appropriate branch under stdout/stdin redirection. -/
def execute {C : Type} (rt : PyRuntime C) (selected_text plain_text : String)
    (st : WidgetState) : ExecResult :=
  if effective_script selected_text plain_text = "" then ⟨[], st, ExecExit.normal⟩
  else
    match rt.compileEval (effective_script selected_text plain_text) with
    | Except.ok code =>
      execute_eval_branch rt code st
        (echoEvents st (effective_script selected_text plain_text))
    | Except.error _ =>
      match rt.compileExec (effective_script selected_text plain_text) with
      | Except.ok code =>
        execute_exec_branch rt code st
          (echoEvents st (effective_script selected_text plain_text))
      | Except.error e =>
        ⟨echoEvents st (effective_script selected_text plain_text)
            ++ (StderrRedirector.write st._stderr_redirect e).1,
          st,
          exitOf (StderrRedirector.write st._stderr_redirect e).2⟩

/-! ### A concrete miniature interpreter instantiating the host primitives -/

/-- Expressions of the embedded fragment: integer literals and names. -/
inductive Expr
  | lit (n : Int)
  | name (x : String)
deriving DecidableEq, Repr

/-- Statements: assignment and expression statements. -/
inductive Stmt
  | assign (x : String) (e : Expr)
  | exprStmt (e : Expr)
deriving DecidableEq, Repr

/-- Compiled code objects of the miniature interpreter. -/
inductive Code
  | evalCode (e : Expr)
  | execCode (ss : List Stmt)
deriving DecidableEq, Repr

/-- Strip ASCII whitespace from both ends of a character list. -/
def trimWs (l : List Char) : List Char :=
  ((l.dropWhile isPySpace).reverse.dropWhile isPySpace).reverse

/-- Parse a nonempty all-letter token as a name. -/
def parseName (l : List Char) : Option String :=
  if l ≠ [] ∧ l.all (fun c => c.isAlpha) then some (String.mk l) else none

/-- Parse a nonempty all-digit token as an integer literal value. -/
def parseIntLit (l : List Char) : Option Int :=
  if l ≠ [] ∧ l.all (fun c => c.isDigit) then
    some (Int.ofNat (l.foldl (fun a c => a * 10 + (c.toNat - 48)) 0))
  else none

/-- Parse an expression: an integer literal or a name. -/
def parseExpr (l : List Char) : Option Expr :=
  match parseIntLit l with
  | some n => some (Expr.lit n)
  | none =>
    match parseName l with
    | some x => some (Expr.name x)
    | none => none

/-- Split a character list at the first `=`, returning both sides. -/
def breakOnEq : List Char → Option (List Char × List Char)
  | [] => none
  | '=' :: rest => some ([], rest)
  | c :: rest =>
    match breakOnEq rest with
    | some p => some (c :: p.1, p.2)
    | none => none

/-- Parse a single statement: an expression statement or `name = expr`. -/
def parseStmt (l : List Char) : Option Stmt :=
  match parseExpr l with
  | some e => some (Stmt.exprStmt e)
  | none =>
    match breakOnEq l with
    | some p =>
      match parseName (trimWs p.1), parseExpr (trimWs p.2) with
      | some x, some e => some (Stmt.assign x e)
      | _, _ => none
    | none => none

/-- The formatted `SyntaxError` traceback the miniature compiler reports. -/
def syntaxErrorText (s : String) : String :=
  "SyntaxError: invalid syntax: " ++ s

/-- The formatted `NameError` traceback for an unbound name. -/
def nameErrorText (x : String) : String :=
  "NameError: name " ++ x ++ " is not defined"

/-- Builtin `compile(script, ..., "eval")` of the miniature interpreter. -/
def miniCompileEval (s : String) : Except String Code :=
  match parseExpr s.toList with
  | some e => Except.ok (Code.evalCode e)
  | none => Except.error (syntaxErrorText s)

/-- Builtin `compile(script, ..., "exec")` of the miniature interpreter. -/
def miniCompileExec (s : String) : Except String Code :=
  match parseStmt s.toList with
  | some st => Except.ok (Code.execCode [st])
  | none => Except.error (syntaxErrorText s)

/-- Name lookup: locals first, then globals (`execute` passes the same table
as both). -/
def lookupName (g l : SymTable) (x : String) : Except String PyVal :=
  match l.lookup x with
  | some v => Except.ok v
  | none =>
    match g.lookup x with
    | some v => Except.ok v
    | none => Except.error (nameErrorText x)

/-- Evaluate an expression against the two namespaces. -/
def evalExpr (g l : SymTable) : Expr → Except String PyVal
  | Expr.lit n => Except.ok (PyVal.intV n)
  | Expr.name x => lookupName g l x

/-- Dictionary update: replace the binding in place, else append. -/
def updateTable : SymTable → String → PyVal → SymTable
  | [], x, v => [(x, v)]
  | (y, w) :: t, x, v =>
    if y = x then (x, v) :: t else (y, w) :: updateTable t x v

/-- Run one statement against the two namespaces; assignments update the local
namespace, matching `exec` with an explicit locals dictionary. -/
def runStmt (g l : SymTable) : Stmt → Except String SymTable
  | Stmt.assign x e =>
    match evalExpr g l e with
    | Except.ok v => Except.ok (updateTable l x v)
    | Except.error t => Except.error t
  | Stmt.exprStmt e =>
    match evalExpr g l e with
    | Except.ok _ => Except.ok l
    | Except.error t => Except.error t

/-- Run a statement list in order, stopping at the first exception. -/
def runStmts (g : SymTable) (l : SymTable) : List Stmt → Except String SymTable
  | [] => Except.ok l
  | s :: rest =>
    match runStmt g l s with
    | Except.ok l2 => runStmts g l2 rest
    | Except.error t => Except.error t

/-- Builtin `eval(code, globals, locals)` of the miniature interpreter. -/
def miniEvalRun (c : Code) (g l : SymTable) : RunOutcome :=
  match c with
  | Code.evalCode e =>
    match evalExpr g l e with
    | Except.ok v => ⟨[], Except.ok v, l⟩
    | Except.error t => ⟨[], Except.error t, l⟩
  | Code.execCode ss =>
    match runStmts g l ss with
    | Except.ok l2 => ⟨[], Except.ok PyVal.noneV, l2⟩
    | Except.error t => ⟨[], Except.error t, l⟩

/-- Builtin `exec(code, globals, locals)` of the miniature interpreter. -/
def miniExecRun (c : Code) (g l : SymTable) : RunOutcome :=
  match c with
  | Code.evalCode e =>
    match evalExpr g l e with
    | Except.ok _ => ⟨[], Except.ok PyVal.noneV, l⟩
    | Except.error t => ⟨[], Except.error t, l⟩
  | Code.execCode ss =>
    match runStmts g l ss with
    | Except.ok l2 => ⟨[], Except.ok PyVal.noneV, l2⟩
    | Except.error t => ⟨[], Except.error t, l⟩

/-- The miniature interpreter packaged as the host runtime. -/
def miniRt : PyRuntime Code :=
  ⟨miniCompileEval, miniCompileExec, miniEvalRun, miniExecRun⟩

/-- The symbol table a fresh tab starts with (input_widget.py lines 99-103). -/
def initialLocals : SymTable :=
  [("__name__", PyVal.strV "__main__"),
   ("__doc__", PyVal.noneV),
   ("__package__", PyVal.noneV)]

/-- A freshly constructed widget: echo on (line 104), all redirectors with a
`None` handle and `_tee = True` (redirect.py constructors), arbitrary distinct
host handles installed process-wide. -/
def st0 : WidgetState :=
  { locals := initialLocals,
    echo := true,
    _stdout_redirect := ⟨none, true⟩,
    _stderr_redirect := ⟨none, true⟩,
    _stdin_redirect := ⟨none⟩,
    streams := ⟨Handle.host 0, Handle.host 1, Handle.host 2⟩ }

/-! ### Structural lemmas about `execute` -/

/-- The `eval` branch leaves the process-wide handles exactly as found: the
`with` exits restore the saved handles. -/
theorem execute_eval_branch_streams {C : Type} (rt : PyRuntime C) (code : C)
    (st : WidgetState) (echoEvs : List Event) :
    (execute_eval_branch rt code st echoEvs).state.streams = st.streams := rfl

/-- The `exec` branch likewise restores the process-wide handles. -/
theorem execute_exec_branch_streams {C : Type} (rt : PyRuntime C) (code : C)
    (st : WidgetState) (echoEvs : List Event) :
    (execute_exec_branch rt code st echoEvs).state.streams = st.streams := rfl

/-- The events of the `eval` branch: the echo events first, then the stdout
writes of the running code, then the `try` body events. -/
theorem execute_eval_branch_events {C : Type} (rt : PyRuntime C) (code : C)
    (st : WidgetState) (echoEvs : List Event) :
    (execute_eval_branch rt code st echoEvs).events
      = echoEvs ++ ((rt.evalRun code st.locals st.locals).writes.map Event.outputEv
          ++ (eval_body st._stderr_redirect (rt.evalRun code st.locals st.locals)).1) := by
  show echoEvs ++ _ ++ _ = _
  rw [List.append_assoc]

/-- The events of the `exec` branch, in the same shape. -/
theorem execute_exec_branch_events {C : Type} (rt : PyRuntime C) (code : C)
    (st : WidgetState) (echoEvs : List Event) :
    (execute_exec_branch rt code st echoEvs).events
      = echoEvs ++ ((rt.execRun code st.locals st.locals).writes.map Event.outputEv
          ++ (exec_body st._stderr_redirect (rt.execRun code st.locals st.locals)).1) := by
  show echoEvs ++ _ ++ _ = _
  rw [List.append_assoc]

/-- The `try` body of the `eval` branch never emits an `input` (echo) event. -/
theorem eval_body_no_input (r : StderrRedirector) (out : RunOutcome) (s : String) :
    Event.inputEv s ∉ (eval_body r out).1 := by
  unfold eval_body
  cases h : out.result <;> simp [StderrRedirector.write]

/-- The `try` body of the `exec` branch never emits an `input` (echo) event. -/
theorem exec_body_no_input (r : StderrRedirector) (out : RunOutcome) (s : String) :
    Event.inputEv s ∉ (exec_body r out).1 := by
  unfold exec_body
  cases h : out.result <;> simp [StderrRedirector.write]

/-- Claim C3 — for every execute request, over every host runtime and every
starting state, the process-wide `sys.stdin` / `sys.stdout` / `sys.stderr`
handles after `execute` finishes (normally or by a propagating exception) are
identical to the handles active before the call: each entered redirector saved
the current handle on `__enter__` and its `__exit__` restored that saved
handle even when the redirected body raised. -/
theorem execute_preserves_streams {C : Type} (rt : PyRuntime C)
    (sel buf : String) (st : WidgetState) :
    (execute rt sel buf st).state.streams = st.streams := by
  unfold execute
  split
  · rfl
  · split
    · exact execute_eval_branch_streams ..
    · split
      · exact execute_exec_branch_streams ..
      · rfl

/-- Claim C9 — with echoing enabled and a non-empty effective script, the
input text is emitted as an echo (`input`) event exactly once, as the first
event, before any compilation outcome is reported; no later event of the
request is an echo event, whichever way compilation and evaluation go
(including the case where both compilations fail). -/
theorem execute_echo_first {C : Type} (rt : PyRuntime C) (sel buf : String)
    (st : WidgetState) (hecho : st.echo = true)
    (hne : ¬ effective_script sel buf = "") :
    ∃ rest, (execute rt sel buf st).events
        = Event.inputEv (effective_script sel buf) :: rest
      ∧ ∀ s, Event.inputEv s ∉ rest := by
  have hEe : echoEvents st (effective_script sel buf)
      = [Event.inputEv (effective_script sel buf)] := by
    unfold echoEvents
    rw [hecho]
    rfl
  unfold execute
  rw [if_neg hne]
  cases hc : rt.compileEval (effective_script sel buf) with
  | ok code =>
    rw [hEe]
    refine ⟨(rt.evalRun code st.locals st.locals).writes.map Event.outputEv
        ++ (eval_body st._stderr_redirect (rt.evalRun code st.locals st.locals)).1,
      rfl, ?_⟩
    intro s hs
    rcases List.mem_append.mp hs with h | h
    · rcases List.mem_map.mp h with ⟨a, _, ha⟩
      exact Event.noConfusion ha
    · exact eval_body_no_input _ _ s h
  | error e1 =>
    cases hx : rt.compileExec (effective_script sel buf) with
    | ok code =>
      rw [hEe]
      refine ⟨(rt.execRun code st.locals st.locals).writes.map Event.outputEv
          ++ (exec_body st._stderr_redirect (rt.execRun code st.locals st.locals)).1,
        rfl, ?_⟩
      intro s hs
      rcases List.mem_append.mp hs with h | h
      · rcases List.mem_map.mp h with ⟨a, _, ha⟩
        exact Event.noConfusion ha
      · exact exec_body_no_input _ _ s h
    | error e2 =>
      rw [hEe]
      refine ⟨(StderrRedirector.write st._stderr_redirect e2).1, rfl, ?_⟩
      intro s hs
      simp [StderrRedirector.write] at hs

/-- Witness for C9 at a concrete double-`SyntaxError` input: the echo event is
still emitted first and exactly once. -/
theorem execute_echo_first_witness :
    st0.echo = true ∧ ¬ effective_script "" "def f(:" = ""
      ∧ ∃ rest, (execute miniRt "" "def f(:" st0).events
          = Event.inputEv (effective_script "" "def f(:") :: rest
        ∧ ∀ s, Event.inputEv s ∉ rest :=
  ⟨rfl, by decide, execute_echo_first miniRt "" "def f(:" st0 rfl (by decide)⟩

/-- Claim C10 — when both the selection (after paragraph-separator
replacement) and the full buffer strip to the empty string, `execute` returns
immediately: no event is emitted, the state (symbol table, redirectors,
process-wide handles) is untouched, and the return is normal. -/
theorem execute_whitespace_noop {C : Type} (rt : PyRuntime C)
    (sel buf : String) (st : WidgetState)
    (h1 : pyStrip (replaceParaSep sel) = "") (h2 : pyStrip buf = "") :
    execute rt sel buf st = ⟨[], st, ExecExit.normal⟩ := by
  have he : effective_script sel buf = "" := by
    unfold effective_script
    rw [h1]
    simpa using h2
  unfold execute
  rw [if_pos he]

/-- Witness for C10: a whitespace-only selection and buffer produce no events
and leave the fresh widget state untouched. -/
theorem execute_whitespace_noop_witness :
    pyStrip (replaceParaSep " \n ") = "" ∧ pyStrip "  " = ""
      ∧ execute miniRt " \n " "  " st0 = ⟨[], st0, ExecExit.normal⟩ :=
  ⟨by decide, by decide,
    execute_whitespace_noop miniRt " \n " "  " st0 (by decide) (by decide)⟩

/-- Claim C1 (code evaluation): on `"def f(:"` — which fails expression
compilation and then statement compilation — `execute` emits the echo and then
exactly one `error` event carrying the formatted `SyntaxError`, leaves the
whole widget state (symbol table included) unchanged, and never consults the
run primitives (the result is the same for every `evalRun` / `execRun`);
however it does not return normally: `self._stderr_redirect.write` raises
`AttributeError` because the stderr redirector was never entered, so its
`_handle` is `None` and `StderrRedirector.write` tees without the `None`
guard that `StdoutRedirector.write` has. -/
theorem execute_compile_error_behavior
    (er xr : Code → SymTable → SymTable → RunOutcome) :
    execute ⟨miniCompileEval, miniCompileExec, er, xr⟩ "" "def f(:" st0
      = ⟨[Event.inputEv "def f(:", Event.errorEv (syntaxErrorText "def f(:")],
          st0, ExecExit.raised attributeErrorNoneWrite⟩ := rfl

/-- Claim C2 (code evaluation): on `"b"` — which compiles as an expression and
raises `NameError` at run time — `execute` catches the exception, emits it as
a single `error` event, restores the process-wide handles and leaves the
symbol table unchanged, but then propagates an `AttributeError` raised inside
the reporting call (`StderrRedirector.write` tees to its never-set `None`
handle), contradicting the claim that no exception ever reaches the caller. -/
theorem execute_runtime_error_raises :
    execute miniRt "" "b" st0
      = ⟨[Event.inputEv "b", Event.errorEv (nameErrorText "b")],
          { st0 with
            _stdout_redirect := ⟨some (Handle.host 1), true⟩,
            _stdin_redirect := ⟨some (Handle.host 0)⟩ },
          ExecExit.raised attributeErrorNoneWrite⟩ := rfl

/-- Claim C4 — executing `"a = 1"` and then, as a separate request against the
resulting state, `"a"`, emits an expression result equal to the string `"1"`:
the top-level assignment persisted in the tab's symbol table (which `execute`
passes as both the global and the local namespace of every evaluation). -/
theorem execute_assignment_persists :
    (execute miniRt "" "a" ((execute miniRt "" "a = 1" st0).state)).events
        = [Event.inputEv "a", Event.resultsEv "1"]
      ∧ ((execute miniRt "" "a = 1" st0).state).locals.lookup "a"
          = some (PyVal.intV 1) :=
  ⟨rfl, rfl⟩

/-! ### Line-editing helpers (input_widget.py lines 318-480, 871-889) -/

/-- A leading-whitespace character (the `[ \t]` class of the source regexes). -/
def isIndentChar (c : Char) : Bool := c = ' ' ∨ c = '\t'

/-- Lines 871-880, `_split_indentation`: the regex `([ \t]*)(.*)` split of a
line into its indentation and the rest (the dot of the regex does not cross a
newline). -/
def split_indentation (line : List Char) : List Char × List Char :=
  (line.takeWhile isIndentChar,
   (line.dropWhile isIndentChar).takeWhile (fun c => ¬ (c = '\n')))

/-- Python `indentation_str.replace("\t", "    ")`. -/
def replaceTabs : List Char → List Char
  | [] => []
  | c :: rest => (if c = '\t' then [' ', ' ', ' ', ' '] else [c]) ++ replaceTabs rest

/-- Lines 882-889, `_get_indentation_length`: the length of the indentation
with every tab counted as four spaces. -/
def get_indentation_length (indentation : List Char) : Nat :=
  (replaceTabs indentation).length

/-- The leading-indentation width of a line (tabs counted as four spaces). -/
def leading_width (line : List Char) : Nat :=
  get_indentation_length (split_indentation line).1

/-- Lines 444-457, the `indent_line` closure of `indent`: round the
leading-space count up to the next multiple of four, or add exactly four when
it is already a multiple.  The source computes `r = n_spaces / 4.0` and tests
`r.is_integer()`; on the integer range of interest this is `n_spaces % 4 = 0`,
and `math.ceil(r) * 4` is `(n_spaces / 4 + 1) * 4` for a non-multiple. -/
def indent_line (line : List Char) : List Char :=
  let p := split_indentation line
  let n_spaces := get_indentation_length p.1
  let m := if n_spaces % 4 = 0 then n_spaces + 4 else (n_spaces / 4 + 1) * 4
  List.replicate m ' ' ++ p.2

/-- Lines 467-478, the `unindent_line` closure of `unindent`: subtract four
when the count is a multiple of four, else round down to the previous
multiple (`math.floor(r) * 4`).  The count is an `Int` because the source can
reach `-4`, and `" " * negative` is the empty string (`Int.toNat`). -/
def unindent_line (line : List Char) : List Char :=
  let p := split_indentation line
  let n_spaces := get_indentation_length p.1
  let m : Int :=
    if n_spaces % 4 = 0 then (n_spaces : Int) - 4
    else ((n_spaces / 4 : Nat) : Int) * 4
  List.replicate m.toNat ' ' ++ p.2

/-! ### List lemmas for the indentation arithmetic -/

/-- Spaces are indentation characters, so `takeWhile` passes over them. -/
theorem takeWhile_replicate_space (k : Nat) (rest : List Char) :
    (List.replicate k ' ' ++ rest).takeWhile isIndentChar
      = List.replicate k ' ' ++ rest.takeWhile isIndentChar := by
  induction k with
  | zero => rfl
  | succ k ih =>
    rw [List.replicate_succ, List.cons_append,
      List.takeWhile_cons_of_pos (by decide : isIndentChar ' ' = true),
      ih, List.cons_append]

/-- Function `dropWhile` passes over leading spaces likewise. -/
theorem dropWhile_replicate_space (k : Nat) (rest : List Char) :
    (List.replicate k ' ' ++ rest).dropWhile isIndentChar
      = rest.dropWhile isIndentChar := by
  induction k with
  | zero => rfl
  | succ k ih =>
    rw [List.replicate_succ, List.cons_append,
      List.dropWhile_cons_of_pos (by decide : isIndentChar ' ' = true), ih]

/-- Dropping a prefix by a predicate leaves a list whose `takeWhile` by the
same predicate is empty. -/
theorem takeWhile_dropWhile_self (p : Char → Bool) (l : List Char) :
    (l.dropWhile p).takeWhile p = [] := by
  induction l with
  | nil => rfl
  | cons c t ih =>
    by_cases h : p c
    · rw [List.dropWhile_cons_of_pos h]
      exact ih
    · rw [List.dropWhile_cons_of_neg h, List.takeWhile_cons_of_neg h]

/-- If a list starts with no `p`-character, the same holds after any
`takeWhile` by another predicate. -/
theorem takeWhile_sub_nil (p q : Char → Bool) (l : List Char)
    (h : l.takeWhile p = []) : (l.takeWhile q).takeWhile p = [] := by
  cases l with
  | nil => rfl
  | cons c t =>
    have hc : p c = false := by
      by_contra hpc
      rw [List.takeWhile_cons_of_pos (by simpa using hpc)] at h
      exact List.noConfusion h
    by_cases hq : q c
    · rw [List.takeWhile_cons_of_pos hq,
        List.takeWhile_cons_of_neg (by simp [hc])]
    · rw [List.takeWhile_cons_of_neg hq]
      rfl

/-- If `takeWhile p` is empty then `dropWhile p` is the list itself. -/
theorem dropWhile_of_takeWhile_nil (p : Char → Bool) (l : List Char)
    (h : l.takeWhile p = []) : l.dropWhile p = l := by
  cases l with
  | nil => rfl
  | cons c t =>
    have hc : p c = false := by
      by_contra hpc
      rw [List.takeWhile_cons_of_pos (by simpa using hpc)] at h
      exact List.noConfusion h
    rw [List.dropWhile_cons_of_neg (by simp [hc])]

/-- Function `takeWhile` is idempotent. -/
theorem takeWhile_idem (p : Char → Bool) (l : List Char) :
    (l.takeWhile p).takeWhile p = l.takeWhile p := by
  induction l with
  | nil => rfl
  | cons c t ih =>
    by_cases h : p c
    · rw [List.takeWhile_cons_of_pos h, List.takeWhile_cons_of_pos h, ih]
    · rw [List.takeWhile_cons_of_neg h]
      rfl

/-- Tabs-to-spaces replacement fixes a run of spaces. -/
theorem replaceTabs_replicate (k : Nat) :
    replaceTabs (List.replicate k ' ') = List.replicate k ' ' := by
  induction k with
  | zero => rfl
  | succ k ih =>
    rw [List.replicate_succ]
    show (if (' ' = '\t') then _ else [' ']) ++ replaceTabs (List.replicate k ' ')
        = ' ' :: List.replicate k ' '
    rw [if_neg (by decide), ih]
    rfl

/-- The second component of `split_indentation` starts with no indentation
character. -/
theorem split_indentation_snd_takeWhile (line : List Char) :
    ((split_indentation line).2).takeWhile isIndentChar = [] :=
  takeWhile_sub_nil isIndentChar _ _
    (takeWhile_dropWhile_self isIndentChar line)

/-- The second component of `split_indentation` contains no newline cut-off:
taking while not-newline returns it unchanged. -/
theorem split_indentation_snd_no_newline (line : List Char) :
    ((split_indentation line).2).takeWhile (fun c => ¬ (c = '\n'))
      = (split_indentation line).2 :=
  takeWhile_idem _ _

/-- Splitting a line made of `k` spaces followed by a whitespace-free,
newline-free remainder recovers the two parts. -/
theorem split_indentation_replicate_append (k : Nat) (rest : List Char)
    (h : rest.takeWhile isIndentChar = [])
    (h2 : rest.takeWhile (fun c => ¬ (c = '\n')) = rest) :
    split_indentation (List.replicate k ' ' ++ rest)
      = (List.replicate k ' ', rest) := by
  unfold split_indentation
  rw [takeWhile_replicate_space, h, List.append_nil, dropWhile_replicate_space,
    dropWhile_of_takeWhile_nil _ _ h, h2]

/-- The leading width of `k` spaces followed by such a remainder is `k`. -/
theorem leading_width_replicate_append (k : Nat) (rest : List Char)
    (h : rest.takeWhile isIndentChar = [])
    (h2 : rest.takeWhile (fun c => ¬ (c = '\n')) = rest) :
    leading_width (List.replicate k ' ' ++ rest) = k := by
  unfold leading_width
  rw [split_indentation_replicate_append k rest h h2]
  show get_indentation_length (List.replicate k ' ') = k
  unfold get_indentation_length
  rw [replaceTabs_replicate]
  exact List.length_replicate k ' '

/-- Claim C5 — for every line: `indent_line` turns the leading width `n`
(tabs counted as four spaces) into `n + 4` when `n` is a multiple of four and
into the next multiple of four, `(n / 4 + 1) * 4`, otherwise; and
`unindent_line` applied to the indented line yields leading width `n` again
when `n` was a multiple of four, but the next-lower multiple `n / 4 * 4` — not
necessarily `n` — otherwise. -/
theorem indent_unindent_roundtrip (line : List Char) :
    leading_width (indent_line line)
        = (if leading_width line % 4 = 0 then leading_width line + 4
           else (leading_width line / 4 + 1) * 4)
      ∧ leading_width (unindent_line (indent_line line))
        = (if leading_width line % 4 = 0 then leading_width line
           else leading_width line / 4 * 4) := by
  have hrest1 := split_indentation_snd_takeWhile line
  have hrest2 := split_indentation_snd_no_newline line
  have hn : get_indentation_length (split_indentation line).1
      = leading_width line := rfl
  set n := leading_width line with hdefn
  set m := if n % 4 = 0 then n + 4 else (n / 4 + 1) * 4 with hdefm
  have hind : indent_line line = List.replicate m ' ' ++ (split_indentation line).2 := by
    simp only [indent_line]
    rw [hn, ← hdefm]
  have hm4 : m % 4 = 0 := by
    rw [hdefm]
    by_cases h4 : n % 4 = 0
    · rw [if_pos h4]
      omega
    · rw [if_neg h4]
      omega
  have hlead : leading_width (indent_line line) = m := by
    rw [hind]
    exact leading_width_replicate_append m _ hrest1 hrest2
  refine ⟨hlead, ?_⟩
  have hsplit : split_indentation (indent_line line)
      = (List.replicate m ' ', (split_indentation line).2) := by
    rw [hind]
    exact split_indentation_replicate_append m _ hrest1 hrest2
  have hgm : get_indentation_length (List.replicate m ' ') = m := by
    unfold get_indentation_length
    rw [replaceTabs_replicate]
    exact List.length_replicate m ' '
  have hunind : unindent_line (indent_line line)
      = List.replicate ((m : Int) - 4).toNat ' ' ++ (split_indentation line).2 := by
    simp only [unindent_line, hsplit]
    rw [hgm, if_pos hm4]
  rw [hunind, leading_width_replicate_append _ _ hrest1 hrest2]
  by_cases h4 : n % 4 = 0
  · rw [if_pos h4]
    have : m = n + 4 := by rw [hdefm, if_pos h4]
    omega
  · rw [if_neg h4]
    have : m = (n / 4 + 1) * 4 := by rw [hdefm, if_neg h4]
    omega

/-! ### Block comment toggling (input_widget.py lines 362-436) -/

/-- Lines 398-406, the `hash_pattern` test `^((?:[ \t]+)?)#`: with
backtracking this matches exactly when the character right after the maximal
leading-whitespace run is a hash. -/
def hash_pattern_matches (line : List Char) : Bool :=
  match line.dropWhile isIndentChar with
  | '#' :: _ => true
  | _ => false

/-- Lines 370-373, the `add_comment_to_line` closure: insert a hash and a
space at the lowest indentation index found across the affected lines. -/
def add_comment_to_line (lowest : Nat) (line : List Char) : List Char :=
  line.take lowest ++ '#' :: ' ' :: line.drop lowest

/-- Lines 375-380, the `remove_comment_to_line` closure: the single
substitution `^((?:[ \t]+)?)# ?` → group 1, removing the first hash after the
leading whitespace together with one following space when present. -/
def remove_comment_to_line (line : List Char) : List Char :=
  match line.dropWhile isIndentChar with
  | '#' :: ' ' :: rest => line.takeWhile isIndentChar ++ rest
  | '#' :: rest => line.takeWhile isIndentChar ++ rest
  | _ => line

/-- Lines 396-416: the minimum of `len(indentation)` over the affected lines
(`lowest_indent_index`, accumulated across the scanning loop). -/
def lowest_indent_index (lines : List (List Char)) : Nat :=
  match lines.map (fun l => (l.takeWhile isIndentChar).length) with
  | [] => 0
  | n :: ns => ns.foldl Nat.min n

/-- Lines 362-436, `block_comment_selection` at the level of the affected
lines: if any line lacks a leading hash, comment all lines at the lowest
indentation index; otherwise strip the first hash (and one following space)
from every line. -/
def block_comment_selection (lines : List (List Char)) : List (List Char) :=
  if lines.any (fun l => !(hash_pattern_matches l)) then
    lines.map (add_comment_to_line (lowest_indent_index lines))
  else
    lines.map remove_comment_to_line

/-! ### Lemmas for the comment toggle -/

/-- Every element of a `takeWhile` satisfies the predicate. -/
theorem takeWhile_mem_pred (p : Char → Bool) (l : List Char) :
    ∀ c ∈ l.takeWhile p, p c = true := by
  induction l with
  | nil => intro c hc; exact absurd hc (List.not_mem_nil c)
  | cons a t ih =>
    intro c hc
    by_cases h : p a
    · rw [List.takeWhile_cons_of_pos h] at hc
      rcases List.mem_cons.mp hc with rfl | hmem
      · exact h
      · exact ih c hmem
    · rw [List.takeWhile_cons_of_neg h] at hc
      exact absurd hc (List.not_mem_nil c)

/-- Function `takeWhile` over an all-satisfying prefix. -/
theorem takeWhile_append_of_all (p : Char → Bool) (l1 l2 : List Char)
    (h1 : ∀ c ∈ l1, p c = true) :
    (l1 ++ l2).takeWhile p = l1 ++ l2.takeWhile p := by
  induction l1 with
  | nil => rfl
  | cons a t ih =>
    rw [List.cons_append, List.takeWhile_cons_of_pos (h1 a (by simp)),
      ih (fun c hc => h1 c (by simp [hc])), List.cons_append]

/-- Function `dropWhile` over an all-satisfying prefix. -/
theorem dropWhile_append_of_all (p : Char → Bool) (l1 l2 : List Char)
    (h1 : ∀ c ∈ l1, p c = true) :
    (l1 ++ l2).dropWhile p = l2.dropWhile p := by
  induction l1 with
  | nil => rfl
  | cons a t ih =>
    rw [List.cons_append, List.dropWhile_cons_of_pos (h1 a (by simp)),
      ih (fun c hc => h1 c (by simp [hc]))]

/-- A left fold by `Nat.min` over a list of copies of the base. -/
theorem foldl_min_const (ns : List Nat) (n : Nat) (h : ∀ m ∈ ns, m = n) :
    ns.foldl Nat.min n = n := by
  induction ns with
  | nil => rfl
  | cons m t ih =>
    have hm : m = n := h m (by simp)
    subst hm
    have hmm : Nat.min m m = m := by simp [Nat.min]
    rw [List.foldl_cons, hmm]
    exact ih (fun k hk => h k (by simp [hk]))

/-- Claim C7 — over a nonempty block of affected lines that all share one
leading indentation `ind`, with at least one line not already commented: the
first toggle inserts `"# "` at the common indentation column of every line,
and the second toggle removes it again, restoring the block exactly. -/
theorem block_comment_toggle_roundtrip (lines : List (List Char))
    (ind : List Char) (hne : lines ≠ [])
    (hind : ∀ l ∈ lines, l.takeWhile isIndentChar = ind)
    (hsome : ∃ l ∈ lines, hash_pattern_matches l = false) :
    block_comment_selection lines
        = lines.map (fun l => ind ++ '#' :: ' ' :: l.dropWhile isIndentChar)
      ∧ block_comment_selection (block_comment_selection lines) = lines := by
  obtain ⟨l0, ls, rfl⟩ := List.exists_cons_of_ne_nil hne
  have hind0 : l0.takeWhile isIndentChar = ind := hind l0 (by simp)
  have hindall : ∀ c ∈ ind, isIndentChar c = true := by
    intro c hc
    rw [← hind0] at hc
    exact takeWhile_mem_pred _ _ c hc
  have hany : (l0 :: ls).any (fun l => !(hash_pattern_matches l)) = true := by
    rw [List.any_eq_true]
    obtain ⟨l, hl, hf⟩ := hsome
    exact ⟨l, hl, by simp [hf]⟩
  have hlow : lowest_indent_index (l0 :: ls) = ind.length := by
    unfold lowest_indent_index
    simp only [List.map_cons]
    rw [hind0]
    apply foldl_min_const
    intro m hm
    rcases List.mem_map.mp hm with ⟨l, hl, rfl⟩
    rw [hind l (List.mem_cons_of_mem _ hl)]
  have hdecomp : ∀ l ∈ (l0 :: ls), l = ind ++ l.dropWhile isIndentChar := by
    intro l hl
    conv_lhs => rw [← List.takeWhile_append_dropWhile (p := isIndentChar) (l := l)]
    rw [hind l hl]
  have hfirst : block_comment_selection (l0 :: ls)
      = (l0 :: ls).map (fun l => ind ++ '#' :: ' ' :: l.dropWhile isIndentChar) := by
    unfold block_comment_selection
    rw [hany, if_pos rfl, hlow]
    apply List.map_congr_left
    intro l hl
    unfold add_comment_to_line
    conv_lhs => rw [hdecomp l hl]
    rw [List.take_left, List.drop_left]
  refine ⟨hfirst, ?_⟩
  rw [hfirst]
  have hdropc : ∀ r : List Char,
      (ind ++ '#' :: ' ' :: r).dropWhile isIndentChar = '#' :: ' ' :: r := by
    intro r
    rw [dropWhile_append_of_all _ _ _ hindall,
      List.dropWhile_cons_of_neg (by decide)]
  have htakec : ∀ r : List Char,
      (ind ++ '#' :: ' ' :: r).takeWhile isIndentChar = ind := by
    intro r
    rw [takeWhile_append_of_all _ _ _ hindall,
      List.takeWhile_cons_of_neg (by decide), List.append_nil]
  have hany2 : ((l0 :: ls).map
        (fun l => ind ++ '#' :: ' ' :: l.dropWhile isIndentChar)).any
        (fun l => !(hash_pattern_matches l)) = false := by
    rw [List.any_eq_false]
    intro l' hl'
    rcases List.mem_map.mp hl' with ⟨l, _, rfl⟩
    suffices h : hash_pattern_matches (ind ++ '#' :: ' ' :: l.dropWhile isIndentChar) = true by
      simp [h]
    unfold hash_pattern_matches
    rw [hdropc]
    rfl
  unfold block_comment_selection
  rw [hany2]
  rw [if_neg (by simp)]
  rw [List.map_map]
  have : ∀ l ∈ (l0 :: ls),
      (remove_comment_to_line ∘ fun l => ind ++ '#' :: ' ' :: l.dropWhile isIndentChar) l = l := by
    intro l hl
    show remove_comment_to_line (ind ++ '#' :: ' ' :: l.dropWhile isIndentChar) = l
    unfold remove_comment_to_line
    rw [hdropc, htakec]
    exact (hdecomp l hl).symm
  rw [List.map_congr_left this, List.map_id']

/-- Witness for C7 at the two-line block of the repository's own test data:
commenting then uncommenting restores the block. -/
theorem block_comment_toggle_roundtrip_witness :
    (["    a = 1".toList, "    b = 2".toList] : List (List Char)) ≠ []
      ∧ block_comment_selection
          (block_comment_selection ["    a = 1".toList, "    b = 2".toList])
        = ["    a = 1".toList, "    b = 2".toList] :=
  ⟨by decide,
    (block_comment_toggle_roundtrip
      ["    a = 1".toList, "    b = 2".toList] "    ".toList
      (by decide) (by decide) (by decide)).2⟩

/-! ### Tab container (spec §4.4; class not present under src) -/

/-- Modelled from the spec: one console tab.  The tab container class
(`PythonTabWidget`) is not present under `src/` — only its test
(`src/tests/test_standalone_app.py::test_remove_tab`) is — so the container is
modelled from spec §3 and §4.4: a tab is an independent editor-buffer /
output-sink / symbol-table triple; only the data relevant to the counting
invariant is retained. -/
structure Tab where
  name : String
  contents : String
  table : SymTable
deriving DecidableEq, Repr

/-- Modelled from the spec: the fresh empty default tab the container creates
when a removal would leave it empty. -/
def fresh_tab : Tab := ⟨"python", "", initialLocals⟩

/-- Modelled from the spec: the tab container, an ordered sequence of tabs. -/
structure PythonTabWidget where
  tabs : List Tab
deriving DecidableEq, Repr

/-- Modelled from the spec (§4.4): `remove(index)` deletes the entry at
`index` and, if the container becomes empty, synchronously creates a fresh
default tab before returning. -/
def remove_tab (w : PythonTabWidget) (index : Nat) : PythonTabWidget :=
  let remaining := w.tabs.eraseIdx index
  if remaining.isEmpty then ⟨[fresh_tab]⟩ else ⟨remaining⟩

/-- Claim C8 — after every `remove_tab` the container holds at least one tab;
in particular removing the sole remaining tab (index 0 of a singleton) leaves
the container with exactly the fresh empty tab, count one. -/
theorem remove_tab_never_empty (w : PythonTabWidget) (index : Nat) :
    1 ≤ (remove_tab w index).tabs.length
      ∧ (w.tabs.length = 1 → index = 0 →
          (remove_tab w index).tabs = [fresh_tab]) := by
  constructor
  · unfold remove_tab
    by_cases h : (w.tabs.eraseIdx index).isEmpty
    · rw [if_pos h]
      exact Nat.le_refl 1
    · rw [if_neg h]
      have : w.tabs.eraseIdx index ≠ [] := by
        intro hnil
        rw [hnil] at h
        exact h rfl
      exact Nat.succ_le_of_lt (List.length_pos.mpr this)
  · intro hlen hidx
    subst hidx
    obtain ⟨t, rest, hw⟩ : ∃ t rest, w.tabs = t :: rest := by
      cases hw : w.tabs with
      | nil => rw [hw] at hlen; exact absurd hlen (by simp)
      | cons t rest => exact ⟨t, rest, rfl⟩
    have hrest : rest = [] := by
      rw [hw] at hlen
      simpa using hlen
    subst hrest
    unfold remove_tab
    rw [hw]
    rfl

/-- Witness for C8: removing the only tab of a singleton container leaves
exactly one fresh tab. -/
theorem remove_tab_never_empty_witness :
    1 ≤ (remove_tab ⟨[fresh_tab]⟩ 0).tabs.length
      ∧ (remove_tab ⟨[fresh_tab]⟩ 0).tabs = [fresh_tab] :=
  ⟨(remove_tab_never_empty ⟨[fresh_tab]⟩ 0).1,
    (remove_tab_never_empty ⟨[fresh_tab]⟩ 0).2 (by decide) rfl⟩

/-! ### New-line auto-indent (input_widget.py lines 318-360) -/

/-- Qt `QTextCursor.positionInBlock()`: the offset of `pos` from the start of the
line containing it (characters since the last newline before `pos`). -/
def posInBlock (text : List Char) (pos : Nat) : Nat :=
  ((text.take pos).reverse.takeWhile (fun c => ¬ (c = '\n'))).length

/-- Qt `cur.block().text()`: the text of the line containing `pos`, without its
delimiting newlines. -/
def blockText (text : List Char) (pos : Nat) : List Char :=
  ((text.take pos).reverse.takeWhile (fun c => ¬ (c = '\n'))).reverse
    ++ (text.drop pos).takeWhile (fun c => ¬ (c = '\n'))

/-- The tail test of the regex `:[ \t]*(#.*)?$` after the colon: only
whitespace, optionally followed by a `#` comment running to the end. -/
def trailOk (cs : List Char) : Bool :=
  match cs.dropWhile isIndentChar with
  | [] => true
  | c :: _ => c = '#'

/-- Line 348, `re.search(r":[ \t]*(#.*)?$", line)`: the index of the
leftmost colon from which the rest of the line is whitespace and an optional
comment (`match.span()[0]`), if any. -/
def colonSearch : List Char → Option Nat
  | [] => none
  | c :: rest =>
    if c = ':' ∧ trailOk rest then some 0
    else (colonSearch rest).map (fun q => q + 1)

/-- Line 358, `removeSelectedText`: delete the characters in `[start, endP)`. -/
def removeSelectedText (text : List Char) (start endP : Nat) : List Char :=
  text.take start ++ text.drop endP

/-- Line 360, `insertText`: splice `ins` in at `pos`. -/
def insertText (text : List Char) (pos : Nat) (ins : List Char) : List Char :=
  text.take pos ++ ins ++ text.drop pos

/-- Lines 318-360, `add_new_line`: position at the start of the selection,
read that line, take its indentation width as the new indentation — unless
there is no selection and the cursor sits inside the leading whitespace, in
which case use the cursor's column; add four more when the whole line matches
a trailing colon (optionally followed by whitespace/comment) and the cursor
is strictly after that colon; then delete the selection and insert the
newline plus spaces at the selection start. -/
def add_new_line (text : List Char) (cur_pos anchor : Nat) : List Char :=
  let start := Nat.min cur_pos anchor
  let endP := Nat.max cur_pos anchor
  let line := blockText text start
  let indentation := (split_indentation line).1
  let n0 := get_indentation_length indentation
  let cur_pos_in_block := posInBlock text start
  let n1 := if cur_pos = anchor ∧ cur_pos_in_block < indentation.length
            then cur_pos_in_block else n0
  let n2 := match colonSearch line with
            | some q => if q < cur_pos_in_block then n1 + 4 else n1
            | none => n1
  insertText (removeSelectedText text start endP) start
    ('\n' :: List.replicate n2 ' ')

/-- Definition following the words of claim C6: the same computation except
that the colon test is applied to the line UP TO THE CURSOR — N is
incremented by four exactly when that prefix matches a trailing colon
optionally followed by whitespace/comment. -/
def add_new_line_per_claim (text : List Char) (cur_pos anchor : Nat) : List Char :=
  let start := Nat.min cur_pos anchor
  let endP := Nat.max cur_pos anchor
  let line := blockText text start
  let col := posInBlock text start
  let base := if cur_pos = anchor ∧ col < ((split_indentation line).1).length
              then col
              else get_indentation_length (split_indentation line).1
  let extra := if (colonSearch (line.take col)).isSome then 4 else 0
  text.take start ++ '\n' :: List.replicate (base + extra) ' ' ++ text.drop endP

/-- The amended claim's indentation width: the indentation width of the first
affected line (or the cursor column when the cursor sits in that line's
leading whitespace with no selection), plus four exactly when the whole line
matches a trailing colon (optionally followed by whitespace/comment) at
leftmost position `q` with the cursor strictly after `q`. -/
def amended_new_line_width (text : List Char) (cur_pos anchor : Nat) : Nat :=
  let start := Nat.min cur_pos anchor
  let line := blockText text start
  let col := posInBlock text start
  let base := if cur_pos = anchor ∧ col < ((split_indentation line).1).length
              then col
              else get_indentation_length (split_indentation line).1
  match colonSearch line with
  | some q => if q < col then base + 4 else base
  | none => base

/-- Counterexample to claim C6 as stated: on the line `"a: b"` with the
cursor (no selection) at column 2 — right after the colon — the code inserts
a bare newline (the whole line does not match the trailing-colon pattern, so
no extra four spaces), while the claim's rule (the line up to the cursor is
`"a:"`, which does match) demands four extra spaces. -/
theorem add_new_line_claim_counterexample :
    add_new_line "a: b".toList 2 2 = "a:\n b".toList
      ∧ add_new_line_per_claim "a: b".toList 2 2 = "a:\n     b".toList
      ∧ add_new_line "a: b".toList 2 2 ≠ add_new_line_per_claim "a: b".toList 2 2 :=
  ⟨by decide, by decide, by decide⟩

/-- Splicing: deleting `[s, e)` and inserting at `s` is one splice. -/
theorem splice_insert (text : List Char) (s e : Nat) (ins : List Char)
    (hs : s ≤ text.length) :
    insertText (removeSelectedText text s e) s ins
      = text.take s ++ ins ++ text.drop e := by
  unfold insertText removeSelectedText
  have hlen : (text.take s).length = s := by
    rw [List.length_take]
    exact Nat.min_eq_left hs
  rw [List.take_left' hlen, List.drop_left' hlen]

/-- Claim C6, amended — for every new-line command with cursor and anchor
inside the buffer, the result is the text with the selection replaced by a
newline and `amended_new_line_width` spaces: the width is the first affected
line's indentation width (or the cursor column inside leading whitespace with
no selection), plus four exactly when the whole line matches the
trailing-colon pattern and the cursor sits strictly after the colon. -/
theorem add_new_line_amended (text : List Char) (cur_pos anchor : Nat)
    (hp : cur_pos ≤ text.length) (ha : anchor ≤ text.length) :
    add_new_line text cur_pos anchor
      = text.take (Nat.min cur_pos anchor)
        ++ '\n' :: List.replicate (amended_new_line_width text cur_pos anchor) ' '
        ++ text.drop (Nat.max cur_pos anchor) := by
  have hs : Nat.min cur_pos anchor ≤ text.length :=
    le_trans (Nat.min_le_left _ _) hp
  show insertText
      (removeSelectedText text (Nat.min cur_pos anchor) (Nat.max cur_pos anchor))
      (Nat.min cur_pos anchor)
      ('\n' :: List.replicate (amended_new_line_width text cur_pos anchor) ' ')
      = _
  exact splice_insert text _ _ _ hs

/-- Witness for the amended C6 at the spec's own example: new-line at the end
of `"    def test(): "` auto-indents four extra spaces. -/
theorem add_new_line_amended_witness :
    add_new_line "    def test(): ".toList 16 16
      = "    def test(): \n        ".toList := by
  have h := add_new_line_amended "    def test(): ".toList 16 16
    (by decide) (by decide)
  rw [h]
  decide

end Console
